import Mathlib

/-!
Verification of the viseme-timeline core of the 2DAvatarChat server.

The definitions below are a shallow embedding of the JavaScript sources:
`src/server/server_backup.js` (suffix-free or `B` names), `src/unnamed/part_000`
(suffix `000`) and `src/unnamed/part_001` (the enhanced pipeline).  JavaScript
numbers are embedded as exact rationals; `Number(x.toFixed(3))` is embedded as
rounding to a multiple of 1/1000 (round half up, which agrees with JavaScript
for the non-negative times that occur here).
-/

/-- A phoneme timeline entry as built by `runForcedAligner` and consumed by
`smoothPhonemeTimeline`.  The JavaScript field `end` is a Lean keyword and is
called `stop` here.  `confidence` is `none` when the JavaScript object carries
no such field. -/
structure PhonemeSegment where
  phoneme : String
  start : ℚ
  stop : ℚ
  confidence : Option ℚ
  deriving DecidableEq, Repr

/-- A viseme timeline entry ({ viseme, start, end [, confidence] }). -/
structure VisemeSegment where
  viseme : String
  start : ℚ
  stop : ℚ
  confidence : Option ℚ
  deriving DecidableEq, Repr

/-- Embedding of `Number(x.toFixed(3))`: round to the nearest 1/1000. -/
def round3 (q : ℚ) : ℚ := (round (q * 1000) : ℚ) / 1000

/-- Embedding of `timeline[timeline.length - 1].end = e` (a no-op on `[]`,
matching the `if (timeline.length)` guards in the sources). -/
def setLastEnd (e : ℚ) : List VisemeSegment → List VisemeSegment
  | [] => []
  | [s] => [{ s with stop := e }]
  | s :: t :: rest => s :: setLastEnd e (t :: rest)

/-- Sum of the durations (end minus start) of a viseme timeline. -/
def durSum (l : List VisemeSegment) : ℚ := (l.map (fun s => s.stop - s.start)).sum

/-- Embedding of the JavaScript truthiness default `c || 0.5` applied to a
possibly-missing confidence field: `undefined` and `0` both give `0.5`. -/
def confD : Option ℚ → ℚ
  | none => 1 / 2
  | some c => if c = 0 then 1 / 2 else c

/-- Embedding of `o || d` on a possibly-missing number: `undefined` and `0`
are falsy. -/
def jsOrQ : Option ℚ → ℚ → ℚ
  | none, d => d
  | some x, d => if x = 0 then d else x

/-!  ### server_backup.js: heuristic phonemizer (greedy digraph scan)  -/

/-- The digraph table of `charToPhonemePair` (checked on
`text.slice(i, i + 2).toLowerCase()`); `none` when no digraph matches. -/
def digraphTable (pair : List Char) : Option (String × ℕ) :=
  if pair = ['t', 'h'] then some ("TH", 2)
  else if pair = ['s', 'h'] then some ("SH", 2)
  else if pair = ['c', 'h'] then some ("CH", 2)
  else if pair = ['p', 'h'] then some ("F", 2)
  else if pair = ['o', 'o'] then some ("UW", 2)
  else if pair = ['e', 'e'] then some ("IY", 2)
  else if pair = ['a', 'i'] then some ("AY", 2)
  else if pair = ['o', 'u'] then some ("OW", 2)
  else none

/-- The single-character fallback of `charToPhonemePair` (input already
lower-cased). -/
def singleCharPh (ch : Char) : String × ℕ :=
  if ch = 'a' then ("AA", 1)
  else if ch = 'e' then ("EH", 1)
  else if ch = 'i' then ("IY", 1)
  else if ch = 'o' then ("OW", 1)
  else if ch = 'u' then ("UH", 1)
  else if ch = 'p' ∨ ch = 'b' ∨ ch = 'm' then ("M", 1)
  else if ch = 'f' ∨ ch = 'v' then ("FV", 1)
  else if ch = 'l' then ("L", 1)
  else if ch = 's' ∨ ch = 'z' then ("S", 1)
  else if ch = 't' ∨ ch = 'd' ∨ ch = 'n' ∨ ch = 'r' ∨ ch = 'k' ∨ ch = 'g' then ("T", 1)
  else ("AA", 1)

/-- `charToPhonemePair(text, i)` of server_backup.js, with the remaining
characters `text[i..]` passed as a list.  Returns the phoneme and the skip.
On an empty remainder JavaScript evaluates `"a".includes("")` to `true` and
returns `{ ph: "AA", skip: 1 }`. -/
def charToPhonemePair (cs : List Char) : String × ℕ :=
  match digraphTable ((cs.take 2).map Char.toLower) with
  | some r => r
  | none =>
    match cs with
    | [] => ("AA", 1)
    | c :: _ => singleCharPh c.toLower

/-- `phonemeToViseme` of server_backup.js. -/
def phonemeToViseme (ph : String) : String :=
  if ph = "AA" ∨ ph = "AE" ∨ ph = "AH" ∨ ph = "AY" then "A"
  else if ph = "EH" ∨ ph = "EE" ∨ ph = "IY" ∨ ph = "IH" ∨ ph = "S" ∨ ph = "Z" ∨
      ph = "SH" ∨ ph = "CH" ∨ ph = "TH" then "E"
  else if ph = "OW" ∨ ph = "OO" ∨ ph = "UH" ∨ ph = "UW" then "O"
  else if ph = "M" ∨ ph = "P" ∨ ph = "B" then "M"
  else if ph = "F" ∨ ph = "V" ∨ ph = "FV" then "FV"
  else if ph = "L" then "L"
  else "A"

/-- The scanning loop of `textToVisemeSequence` (server_backup.js).  `last` is
the last viseme pushed (`none` while the output is empty); the fuel argument
is an upper bound on the number of iterations — `i += skip` with `skip ≥ 1`
(proved below) consumes at least one character per step, so an initial fuel of
`text.length` never runs out before the scan passes the end of the text. -/
def ttvsGo : ℕ → Option String → List Char → List String
  | 0, _, _ => []
  | _ + 1, _, [] => []
  | fuel + 1, last, c :: rest =>
    let pr := charToPhonemePair (c :: rest)
    let vis := phonemeToViseme pr.1
    if last = some vis then ttvsGo fuel last (rest.drop (pr.2 - 1))
    else vis :: ttvsGo fuel (some vis) (rest.drop (pr.2 - 1))

/-- `textToVisemeSequence` of server_backup.js. -/
def textToVisemeSequence (text : List Char) : List String :=
  ttvsGo text.length none text

/-!  ### part_000: per-character phonemizer and fallback builder  -/

/-- `charToViseme` of part_000. -/
def charToViseme000 (c : Char) : String :=
  let ch := c.toLower
  if ch = 'a' ∨ ch = 'e' ∨ ch = 'i' ∨ ch = 'o' ∨ ch = 'u' then "A"
  else if ch = 'b' ∨ ch = 'd' ∨ ch = 'p' ∨ ch = 'v' then "M"
  else if ch = 'f' ∨ ch = 'v' ∨ ch = 'w' then "FV"
  else if ch = 'l' then "L"
  else if ch = 's' ∨ ch = 'z' ∨ ch = 'c' ∨ ch = 'j' ∨ ch = 'x' then "E"
  else if ch = 'o' then "O"
  else "A"

/-- The character class of the regex `/[\w']/i`: ASCII letters, digits,
underscore, or an apostrophe. -/
def isWordChar (c : Char) : Bool :=
  c.isAlphanum || c = '_' || c = '\''

/-- The loop of `textToVisemeSequence` (part_000): characters outside
`/[\w']/i` are skipped (`continue`), a viseme is pushed only when it differs
from the last pushed one. -/
def ttvs000Aux (last : Option String) : List Char → List String
  | [] => []
  | c :: cs =>
    if isWordChar c then
      let v := charToViseme000 c
      if last = some v then ttvs000Aux last cs
      else v :: ttvs000Aux (some v) cs
    else ttvs000Aux last cs

/-- `textToVisemeSequence` of part_000. -/
def textToVisemeSequence000 (text : List Char) : List String :=
  ttvs000Aux none text

/-- The loop of `buildVisemeTimeline` (part_000).  `rand i` is the value
`Math.random()` returned at iteration `i`; the per-segment hold is
`Math.max(0.04, base * (0.85 + rand * 0.3))` and the cursor is the unrounded
clamped end. -/
def bvt000Go (rand : ℕ → ℚ) (durationSeconds base : ℚ) : ℕ → ℚ → List String → List VisemeSegment
  | _, _, [] => []
  | i, cursor, v :: vs =>
    let dur := max (1 / 25) (base * (17 / 20 + rand i * (3 / 10)))
    let e := min durationSeconds (cursor + dur)
    ⟨v, round3 cursor, round3 e, none⟩ :: bvt000Go rand durationSeconds base (i + 1) e vs

/-- `buildVisemeTimeline` of part_000 (the variant with the 40 ms floor),
with the stream of `Math.random()` values as an explicit argument. -/
def buildVisemeTimeline000 (rand : ℕ → ℚ) (visemeSeq : List String) (durationSeconds : ℚ) :
    List VisemeSegment :=
  match visemeSeq with
  | [] => []
  | v :: vs =>
    let base := durationSeconds / (((v :: vs).length : ℕ) : ℚ)
    setLastEnd (round3 durationSeconds) (bvt000Go rand durationSeconds base 0 0 (v :: vs))

/-!  ### server_backup.js: fallback timeline builder (no floor)  -/

/-- The loop of `buildVisemeTimeline` (server_backup.js): hold is
`avg * (0.9 + Math.random() * 0.3)` with no minimum floor. -/
def bvtGo (rand : ℕ → ℚ) (duration avg : ℚ) : ℕ → ℚ → List String → List VisemeSegment
  | _, _, [] => []
  | i, cursor, v :: vs =>
    let hold := avg * (9 / 10 + rand i * (3 / 10))
    let e := min duration (cursor + hold)
    ⟨v, round3 cursor, round3 e, none⟩ :: bvtGo rand duration avg (i + 1) e vs

/-- `buildVisemeTimeline` of server_backup.js, with the stream of
`Math.random()` values as an explicit argument. -/
def buildVisemeTimeline (rand : ℕ → ℚ) (visemes : List String) (duration : ℚ) :
    List VisemeSegment :=
  match visemes with
  | [] => []
  | v :: vs =>
    let avg := duration / (((v :: vs).length : ℕ) : ℚ)
    setLastEnd (round3 duration) (bvtGo rand duration avg 0 0 (v :: vs))

/-!  ### part_001: enhanced pipeline  -/

/-- The `PHONEME_TO_VISEME` table of part_001 as a partial lookup;
`none` for a phoneme absent from the table. -/
def phonemeToVisemeTableE (ph : String) : Option String :=
  if ph = "SIL" ∨ ph = "SPN" ∨ ph = "CLOSURE" then some "rest"
  else if ph = "AA" ∨ ph = "AE" ∨ ph = "AH" then some "A"
  else if ph = "AO" ∨ ph = "AW" then some "O"
  else if ph = "AY" then some "A"
  else if ph = "EH" ∨ ph = "EY" then some "E"
  else if ph = "ER" then some "A"
  else if ph = "IY" ∨ ph = "IH" ∨ ph = "Y" then some "E"
  else if ph = "OW" ∨ ph = "UH" ∨ ph = "UW" then some "O"
  else if ph = "B" ∨ ph = "P" ∨ ph = "M" ∨ ph = "EM" then some "M"
  else if ph = "F" ∨ ph = "V" then some "FV"
  else if ph = "L" ∨ ph = "EL" then some "L"
  else if ph = "S" ∨ ph = "Z" ∨ ph = "SH" ∨ ph = "ZH" then some "E"
  else if ph = "CH" ∨ ph = "JH" then some "E"
  else if ph = "TH" ∨ ph = "DH" then some "E"
  else if ph = "N" ∨ ph = "NG" ∨ ph = "EN" then some "M"
  else if ph = "T" ∨ ph = "D" then some "M"
  else if ph = "K" ∨ ph = "G" then some "A"
  else if ph = "R" ∨ ph = "W" ∨ ph = "WH" then some "O"
  else if ph = "DEFAULT" then some "A"
  else none

/-- `PHONEME_TO_VISEME[ph] || PHONEME_TO_VISEME["DEFAULT"]` (and the
`|| "A"` lookups in the flicker check): the table with default `"A"`. -/
def visemeOf (ph : String) : String := (phonemeToVisemeTableE ph).getD "A"

/-- The merge threshold of `smoothPhonemeTimeline` (default parameter 0.03). -/
def mergeThreshold : ℚ := 3 / 100

/-- The merge condition of `smoothPhonemeTimeline`: same phoneme and the gap
`next.start - current.end` below the threshold. -/
abbrev mergeCond (current next : PhonemeSegment) : Prop :=
  current.phoneme = next.phoneme ∧ next.start - current.stop < mergeThreshold

/-- The merge step of `smoothPhonemeTimeline`: the current entry's end
becomes the next entry's end and its confidence
`Math.max(current.confidence || 0.5, next.confidence || 0.5)`. -/
def mergedSeg (current next : PhonemeSegment) : PhonemeSegment :=
  { current with
    stop := next.stop
    confidence := some (max (confD current.confidence) (confD next.confidence)) }

/-- The loop of `smoothPhonemeTimeline`: `current` is the pending entry,
merged with the next entry whenever `mergeCond` holds. -/
def smoothAux (current : PhonemeSegment) : List PhonemeSegment → List PhonemeSegment
  | [] => [current]
  | next :: rest =>
    if mergeCond current next then smoothAux (mergedSeg current next) rest
    else current :: smoothAux next rest

/-- `smoothPhonemeTimeline` of part_001 (at its default threshold). -/
def smoothPhonemeTimeline : List PhonemeSegment → List PhonemeSegment
  | [] => []
  | p :: ps => smoothAux p ps

/-- The flicker-skip test of `phonemesToVisemesEnhanced`: a phoneme shorter
than 50 ms, with a predecessor and a successor whose visemes agree, is
dropped.  `prev` is `phones[i - 1]` (present iff `i > 0`) and `rest` the
phonemes after position `i`. -/
def ptveSkip (prev : Option PhonemeSegment) (p : PhonemeSegment)
    (rest : List PhonemeSegment) : Bool :=
  match prev, rest with
  | some pr, nx :: _ =>
    decide (p.stop - p.start < 1 / 20) && decide (visemeOf pr.phoneme = visemeOf nx.phoneme)
  | _, _ => false

/-- The main loop of `phonemesToVisemesEnhanced`. -/
def ptveAux (prev : Option PhonemeSegment) : List PhonemeSegment → List VisemeSegment
  | [] => []
  | p :: rest =>
    if ptveSkip prev p rest then ptveAux (some p) rest
    else
      ⟨visemeOf p.phoneme, p.start, p.stop, some (confD p.confidence)⟩ :: ptveAux (some p) rest

/-- The final-rest step of `phonemesToVisemesEnhanced`: when the last viseme
ends before the last phoneme, a closing `"rest"` segment is appended. -/
def addFinalRest (body : List VisemeSegment) (phones : List PhonemeSegment) :
    List VisemeSegment :=
  match body.getLast?, phones.getLast? with
  | some lv, some lp =>
    if lv.stop < lp.stop then body ++ [⟨"rest", lv.stop, lp.stop, some 1⟩] else body
  | _, _ => body

/-- The initial-rest step of `phonemesToVisemesEnhanced`: when the first
phoneme starts after 0, an opening `"rest"` segment is pushed first. -/
def ptvePre (p0 : PhonemeSegment) : List VisemeSegment :=
  if 0 < p0.start then [⟨"rest", 0, p0.start, some 1⟩] else []

/-- `phonemesToVisemesEnhanced` of part_001. -/
def phonemesToVisemesEnhanced (phones : List PhonemeSegment) : List VisemeSegment :=
  match phones with
  | [] => []
  | p0 :: rest => addFinalRest (ptvePre p0 ++ ptveAux none (p0 :: rest)) (p0 :: rest)

/-- `charToVisemeEnhanced` of part_001. -/
def charToVisemeEnhanced (c : Char) : String :=
  let ch := c.toLower
  if ch = 'a' ∨ ch = 'e' ∨ ch = 'i' ∨ ch = 'o' ∨ ch = 'u' then "A"
  else if ch = 'b' ∨ ch = 'p' then "M"
  else if ch = 'm' then "M"
  else if ch = 'f' ∨ ch = 'v' then "FV"
  else if ch = 'l' then "L"
  else if ch = 's' ∨ ch = 'z' then "E"
  else if ch = 'c' ∨ ch = 'k' ∨ ch = 'g' then "A"
  else if ch = 'o' then "O"
  else if ch = 'w' then "O"
  else if ch = 't' ∨ ch = 'd' ∨ ch = 'n' ∨ ch = 'r' then "M"
  else if ch = 'h' then "A"
  else "rest"

/-- The whitespace class of the regex `/\s/` restricted to ASCII. -/
def isWsChar (c : Char) : Bool :=
  c = ' ' || c = '\t' || c = '\n' || c = '\r' || c = '\x0b' || c = '\x0c'

/-- The splitting loop behind `text.split(/\s+/)`: `inWs` records that a run
of whitespace is being consumed (the current token was already flushed), `cur`
holds the reversed current token. -/
def splitWsGo : Bool → List Char → List Char → List (List Char)
  | false, cur, [] => [cur.reverse]
  | true, _, [] => [[]]
  | false, cur, c :: cs =>
    if isWsChar c then cur.reverse :: splitWsGo true [] cs
    else splitWsGo false (c :: cur) cs
  | true, cur, c :: cs =>
    if isWsChar c then splitWsGo true cur cs
    else splitWsGo false [c] cs

/-- `text.split(/\s+/)` (so `"" ↦ [""]`, with empty leading/trailing tokens
around boundary whitespace, as in JavaScript). -/
def splitWs (s : List Char) : List (List Char) := splitWsGo false [] s

/-- The per-character step of `generateFallbackVisemes`: a viseme segment is
pushed only on a viseme change, its end clamped to the word's end. -/
def fbCharStep (wordEnd charDuration : ℚ) (acc : ℚ × List VisemeSegment) (c : Char) :
    ℚ × List VisemeSegment :=
  let charTime := acc.1
  let seq := acc.2
  let v := charToVisemeEnhanced c
  let seq2 :=
    if seq.getLast?.map VisemeSegment.viseme ≠ some v then
      seq ++ [⟨v, round3 charTime, round3 (min wordEnd (charTime + charDuration)), none⟩]
    else seq
  (charTime + charDuration, seq2)

/-- The word loop of `generateFallbackVisemes`.  After a word other than the
last word (`word !== words[words.length - 1]`, a string comparison) a 50 ms
`"rest"` segment with unrounded bounds is appended. -/
def fbWords (wordDuration : ℚ) (lastWord : List Char) :
    ℚ × List VisemeSegment → List (List Char) → ℚ × List VisemeSegment
  | acc, [] => acc
  | (timeCursor, seq), word :: ws =>
    let wordEnd := timeCursor + wordDuration
    let charDuration := wordDuration / ((max word.length 1 : ℕ) : ℚ)
    let stepped := word.foldl (fbCharStep wordEnd charDuration) (timeCursor, seq)
    let next :=
      if word ≠ lastWord then
        (stepped.1 + 1 / 20, stepped.2 ++ [⟨"rest", stepped.1, stepped.1 + 1 / 20, none⟩])
      else (wordEnd, stepped.2)
    fbWords wordDuration lastWord next ws

/-- `generateFallbackVisemes` of part_001. -/
def generateFallbackVisemes (text : List Char) (duration : ℚ) : List VisemeSegment :=
  let words := splitWs (text.map Char.toLower)
  let wordDuration := duration / ((max words.length 1 : ℕ) : ℚ)
  let lastWord := (words.getLast?).getD []
  setLastEnd (round3 duration) (fbWords wordDuration lastWord (0, []) words).2

/-- Step 4 of the `/chat` handler of part_001: the aligned path (smoothing
then viseme conversion) when the aligner returned a non-empty phoneme list,
the enhanced fallback otherwise. -/
def chatTurnRaw (phones : Option (List PhonemeSegment)) (reply : List Char)
    (durationSeconds : ℚ) : List VisemeSegment :=
  match phones with
  | some ps =>
    if ps.length ≠ 0 then phonemesToVisemesEnhanced (smoothPhonemeTimeline ps)
    else generateFallbackVisemes reply durationSeconds
  | none => generateFallbackVisemes reply durationSeconds

/-- Step 5 of the `/chat` handler of part_001: an empty timeline is replaced
by a single `"rest"` segment spanning `[0, Math.max(durationSeconds, 0.1)]`. -/
def chatTurnTimeline (phones : Option (List PhonemeSegment)) (reply : List Char)
    (durationSeconds : ℚ) : List VisemeSegment :=
  let t := chatTurnRaw phones reply durationSeconds
  if t.length = 0 then [⟨"rest", 0, max durationSeconds (1 / 10), none⟩] else t

/-!  ### part_001: forced-aligner client (`runForcedAligner`)  -/

/-- One entry of a Gentle word's `phones` array.  `phone` is `""` when the
field is absent or empty (both falsy, both skipped); `start`, `duration` and
`score` are `none` when absent (the code tests `typeof === "number"` for
`start`/`duration` and truthiness for `score`). -/
structure GentlePhone where
  phone : String
  start : Option ℚ
  duration : Option ℚ
  score : Option ℚ
  deriving DecidableEq, Repr

/-- One entry of Gentle's `words` array.  `alignedWord` records the truthiness
of `w.alignedWord`; `wcase` is `w.case`; `word` is `none` when absent. -/
structure GentleWord where
  wcase : Option String
  alignedWord : Bool
  phones : Option (List GentlePhone)
  start : Option ℚ
  stop : Option ℚ
  word : Option String
  deriving DecidableEq, Repr

/-- `String(p.phone).replace(/\d/g, "").toUpperCase()`. -/
def stripDigitsUpper (s : String) : String :=
  String.mk ((s.toList.filter (fun c => !c.isDigit)).map Char.toUpper)

/-- `guessPhonemeFromWord` of part_001 (classifies the upper-cased first
character; JavaScript returns `"AA"` for an empty word as well, because
`"AEIOU".includes("")` is `true`). -/
def guessPhonemeFromWord (word : String) : String :=
  match word.toList with
  | [] => "AA"
  | c :: _ =>
    let u := c.toUpper
    if u = 'A' ∨ u = 'E' ∨ u = 'I' ∨ u = 'O' ∨ u = 'U' then "AA"
    else if u = 'B' ∨ u = 'P' ∨ u = 'M' then "M"
    else if u = 'F' ∨ u = 'V' ∨ u = 'C' ∨ u = 'K' then "FV"
    else if u = 'S' ∨ u = 'Z' then "S"
    else if u = 'L' then "L"
    else "AA"

/-- The not-found test of the normalizer:
`w.case === "not-found-in-audio" || !w.alignedWord`. -/
abbrev notFoundWord (w : GentleWord) : Prop :=
  w.wcase = some "not-found-in-audio" ∨ w.alignedWord = false

/-- The inner loop over a word's `phones` array: returns the pushed segments
and the updated time cursor.  Entries with a falsy `phone` are skipped;
`start` defaults to the word's start, then the cursor; `duration` defaults to
50 ms; `score` is defaulted by truthiness to 1. -/
def wordPhones (w : GentleWord) (t : ℚ) : List GentlePhone → List PhonemeSegment × ℚ
  | [] => ([], t)
  | p :: ps =>
    if p.phone = "" then wordPhones w t ps
    else
      let s := p.start.getD (w.start.getD t)
      let e := s + p.duration.getD (1 / 20)
      let stepped := wordPhones w e ps
      (⟨stripDigitsUpper p.phone, round3 s, round3 e, some (jsOrQ p.score 1)⟩ :: stepped.1,
        stepped.2)

/-- The normalization loop of `runForcedAligner` over Gentle's words, carrying
the running time cursor.  A not-found word becomes a 100 ms `SIL` segment; a
word without a `phones` array becomes a single word-level segment with
confidence 0.5. -/
def extractPhonesAux (t : ℚ) : List GentleWord → List PhonemeSegment
  | [] => []
  | w :: ws =>
    if notFoundWord w then
      ⟨"SIL", t, t + 1 / 10, some 0⟩ :: extractPhonesAux (t + 1 / 10) ws
    else
      match w.phones with
      | some ps =>
        let stepped := wordPhones w t ps
        stepped.1 ++ extractPhonesAux stepped.2 ws
      | none =>
        let s := jsOrQ w.start t
        let e := jsOrQ w.stop (s + 1 / 10)
        let ph := match w.word with
          | some wd => if wd = "" then "SIL" else guessPhonemeFromWord wd
          | none => "SIL"
        ⟨ph, round3 s, round3 e, some (1 / 2)⟩ :: extractPhonesAux e ws

/-- `json.words` normalization: a response whose `words` is not an array
yields no phones. -/
def extractPhones : Option (List GentleWord) → List PhonemeSegment
  | none => []
  | some ws => extractPhonesAux 0 ws

/-- The outcomes of one `runForcedAligner` call: the wav file missing, the
10 s abort firing, a non-OK HTTP status, a thrown exception, or a parsed JSON
response (whose `words` field may be missing). -/
inductive AlignerOutcome where
  | wavMissing
  | timeout
  | httpError (status : ℕ)
  | exn
  | response (words : Option (List GentleWord))
  deriving DecidableEq, Repr

/-- The `setTimeout(() => controller.abort(), 10000)` deadline, in ms. -/
def alignerTimeoutMs : ℕ := 10000

/-- `runForcedAligner` of part_001 as a function of the call's outcome: every
failure mode returns `null` (`none`), and a response is normalized and
returned only when at least one usable segment remains
(`phones.length > 0 ? phones : null`). -/
def runForcedAligner : AlignerOutcome → Option (List PhonemeSegment)
  | .wavMissing => none
  | .timeout => none
  | .httpError _ => none
  | .exn => none
  | .response words =>
    let phones := extractPhones words
    if phones.length > 0 then some phones else none

/-!  ### Helper lemmas  -/

theorem durSum_nil : durSum [] = 0 := rfl

theorem durSum_cons (s : VisemeSegment) (l : List VisemeSegment) :
    durSum (s :: l) = (s.stop - s.start) + durSum l := by
  simp [durSum]

theorem round3_zero : round3 0 = 0 := by
  norm_num [round3]

theorem round3_mono {x y : ℚ} (h : x ≤ y) : round3 x ≤ round3 y := by
  unfold round3
  have hr : round (x * 1000) ≤ round (y * 1000) := by
    rw [round_eq, round_eq]
    exact Int.floor_mono (by linarith)
  have hc : ((round (x * 1000) : ℤ) : ℚ) ≤ ((round (y * 1000) : ℤ) : ℚ) := by
    exact_mod_cast hr
  linarith

theorem round3_add_inv25 (c : ℚ) : round3 (c + 1 / 25) = round3 c + 1 / 25 := by
  unfold round3
  have h : (c + 1 / 25) * 1000 = c * 1000 + ((40 : ℤ) : ℚ) := by push_cast; ring
  rw [h, round_add_int]
  push_cast
  ring

theorem abs_round3_sub_le (d : ℚ) : |round3 d - d| ≤ 1 / 2000 := by
  have h := abs_sub_round (d * 1000)
  have h2 : round3 d - d = (((round (d * 1000) : ℤ) : ℚ) - d * 1000) / 1000 := by
    unfold round3; ring
  rw [h2, abs_div]
  rw [abs_sub_comm] at h
  have h3 : |(1000 : ℚ)| = 1000 := by norm_num
  rw [h3]
  linarith

theorem setLastEnd_ne_nil (E : ℚ) : ∀ {l : List VisemeSegment}, l ≠ [] → setLastEnd E l ≠ [] := by
  intro l h
  cases l with
  | nil => exact absurd rfl h
  | cons a t => cases t <;> simp [setLastEnd]

theorem setLastEnd_cons_of_ne (E : ℚ) (s : VisemeSegment) {l : List VisemeSegment} (h : l ≠ []) :
    setLastEnd E (s :: l) = s :: setLastEnd E l := by
  cases l with
  | nil => exact absurd rfl h
  | cons t rest => rfl

theorem setLastEnd_head (E : ℚ) (s : VisemeSegment) (l : List VisemeSegment) :
    (setLastEnd E (s :: l)).head?.map VisemeSegment.start = some s.start := by
  cases l with
  | nil => rfl
  | cons t rest => rfl

theorem getLast?_cons_ne_nil {α : Type} (a : α) {l : List α} (h : l ≠ []) :
    (a :: l).getLast? = l.getLast? := by
  cases l with
  | nil => exact absurd rfl h
  | cons b u => exact List.getLast?_cons_cons

theorem getLast?_append_ne_nil {α : Type} (l1 : List α) {l2 : List α} (h : l2 ≠ []) :
    (l1 ++ l2).getLast? = l2.getLast? := by
  induction l1 with
  | nil => rfl
  | cons a t ih =>
    have hne : t ++ l2 ≠ [] := by
      intro hc
      exact h (List.append_eq_nil.mp hc).2
    rw [List.cons_append, getLast?_cons_ne_nil a hne, ih]

/-!  ### Claim C1  -/

/-- Claim C1: for every aligner result, transcript and duration the chat-turn
pipeline returns a non-empty viseme timeline, and for the empty transcript
with available duration 0.5 s (fallback path) the timeline is exactly one
`"rest"` segment spanning `[0, 0.5]`. -/
theorem chat_timeline_nonempty :
    (∀ phones reply d, chatTurnTimeline phones reply d ≠ []) ∧
    chatTurnTimeline none [] (1 / 2) = [⟨"rest", 0, 1 / 2, none⟩] := by
  constructor
  · intro phones reply d
    show (if (chatTurnRaw phones reply d).length = 0 then
        [⟨"rest", 0, max d (1 / 10), none⟩] else chatTurnRaw phones reply d) ≠ []
    by_cases h : (chatTurnRaw phones reply d).length = 0
    · rw [if_pos h]; simp
    · rw [if_neg h]
      intro hc
      exact h (by rw [hc]; rfl)
  · norm_num +decide [chatTurnTimeline, chatTurnRaw, generateFallbackVisemes, splitWs,
      splitWsGo, isWsChar, fbWords, fbCharStep, setLastEnd, round3, round_eq]

/-!  ### Claim C3  -/

/-- Claim C3: the forced-alignment client is bounded by a 10 s abort deadline,
a timeout returns the explicit unavailable value `null`, and every outcome
either returns `null` or a non-empty phoneme segment list — it never throws
and never returns an empty or partial list. -/
theorem aligner_soft_fail :
    alignerTimeoutMs = 10000 ∧
    runForcedAligner AlignerOutcome.timeout = none ∧
    ∀ o, runForcedAligner o = none ∨ ∃ ps, runForcedAligner o = some ps ∧ ps ≠ [] := by
  refine ⟨rfl, rfl, fun o => ?_⟩
  cases o with
  | wavMissing => exact Or.inl rfl
  | timeout => exact Or.inl rfl
  | httpError s => exact Or.inl rfl
  | exn => exact Or.inl rfl
  | response words =>
    by_cases h : (extractPhones words).length > 0
    · refine Or.inr ⟨extractPhones words, ?_, List.length_pos.mp h⟩
      show (if (extractPhones words).length > 0 then some (extractPhones words) else none) = _
      rw [if_pos h]
    · refine Or.inl ?_
      show (if (extractPhones words).length > 0 then some (extractPhones words) else none) = none
      rw [if_neg h]

/-!  ### Claim C5  -/

/-- Claim C5: every aligner word marked not found in the audio (or without an
aligned word) contributes a silent `SIL` phoneme segment to the normalized
output, and a response consisting of a single such word yields the non-empty
list `[{SIL, t, t+0.1, confidence 0}]` rather than an empty result. -/
theorem notfound_yields_silence :
    (∀ t ws w, w ∈ ws → notFoundWord w →
      ∃ s ∈ extractPhonesAux t ws, s.phoneme = "SIL") ∧
    (∀ w, notFoundWord w →
      runForcedAligner (AlignerOutcome.response (some [w])) =
        some [⟨"SIL", 0, 1 / 10, some 0⟩]) := by
  constructor
  · intro t ws
    induction ws generalizing t with
    | nil => simp
    | cons a as ih =>
      intro w hw hnf
      rcases List.mem_cons.mp hw with rfl | hmem
      · rw [extractPhonesAux, if_pos hnf]
        exact ⟨⟨"SIL", t, t + 1 / 10, some 0⟩, List.mem_cons_self _ _, rfl⟩
      · rw [extractPhonesAux]
        split
        · obtain ⟨s, hs, hph⟩ := ih (t + 1 / 10) w hmem hnf
          exact ⟨s, List.mem_cons_of_mem _ hs, hph⟩
        · split
          · obtain ⟨s, hs, hph⟩ := ih _ w hmem hnf
            exact ⟨s, List.mem_append_right _ hs, hph⟩
          · obtain ⟨s, hs, hph⟩ := ih _ w hmem hnf
            exact ⟨s, List.mem_cons_of_mem _ hs, hph⟩
  · intro w hnf
    have h1 : extractPhonesAux 0 [w] = [⟨"SIL", 0, 1 / 10, some 0⟩] := by
      rw [extractPhonesAux, if_pos hnf]
      norm_num
      rfl
    show (if (extractPhones (some [w])).length > 0 then some (extractPhones (some [w]))
        else none) = _
    rw [show extractPhones (some [w]) = extractPhonesAux 0 [w] from rfl, h1]
    rfl

/-- Witness for C5 at a concrete not-found word. -/
theorem notfound_yields_silence_witness :
    (∃ s ∈ extractPhonesAux 0
        [GentleWord.mk (some "not-found-in-audio") true none none none none],
      s.phoneme = "SIL") ∧
    runForcedAligner (AlignerOutcome.response
        (some [GentleWord.mk (some "not-found-in-audio") true none none none none])) =
      some [⟨"SIL", 0, 1 / 10, some 0⟩] :=
  ⟨notfound_yields_silence.1 0 _ _ (List.mem_singleton.mpr rfl) (Or.inl rfl),
   notfound_yields_silence.2 _ (Or.inl rfl)⟩

/-!  ### Claim C9  -/

theorem ttvs000Aux_filter (cs : List Char) :
    ∀ last, ttvs000Aux last (cs.filter isWordChar) = ttvs000Aux last cs := by
  induction cs with
  | nil => intro last; rfl
  | cons c cs ih =>
    intro last
    by_cases h : isWordChar c = true
    · rw [List.filter_cons_of_pos h]
      rw [ttvs000Aux, ttvs000Aux, if_pos h, if_pos h]
      by_cases hl : last = some (charToViseme000 c)
      · rw [if_pos hl, if_pos hl, ih]
      · rw [if_neg hl, if_neg hl, ih]
    · rw [List.filter_cons_of_neg h]
      rw [show ttvs000Aux last (c :: cs) = ttvs000Aux last cs from by
        rw [ttvs000Aux, if_neg h]]
      exact ih last

/-- Claim C9 (counterexample): in the server_backup digraph phonemizer a
whitespace character is not skipped — it maps to the fallback phoneme `AA`,
contributing viseme `A` and preventing two `S`-class characters around it
from collapsing (` ` yields `["A"]`, `s s` yields `["E", "A", "E"]`). -/
theorem digraph_phonemizer_counterexample :
    textToVisemeSequence [' '] = ["A"] ∧
    textToVisemeSequence ['s', ' ', 's'] = ["E", "A", "E"] :=
  ⟨rfl, rfl⟩

/-- Claim C9 (amended): the part_000 per-character phonemizer does skip every
character outside the class `[\w']` — filtering them away first changes
nothing — and identical classes separated by such characters collapse
(`s s` yields the single entry `["E"]`). -/
theorem phonemizer000_skips_nonword :
    (∀ text, textToVisemeSequence000 (text.filter isWordChar) = textToVisemeSequence000 text) ∧
    textToVisemeSequence000 ['s', ' ', 's'] = ["E"] :=
  ⟨fun text => ttvs000Aux_filter text none, rfl⟩

/-!  ### Claim C10  -/

theorem digraphTable_skip (pair : List Char) (r : String × ℕ)
    (h : digraphTable pair = some r) : r.2 = 2 := by
  unfold digraphTable at h
  split_ifs at h <;> (injection h with h2; subst h2; rfl)

theorem singleCharPh_skip (c : Char) : (singleCharPh c).2 = 1 := by
  unfold singleCharPh
  repeat' split
  all_goals rfl

theorem charToPhonemePair_skip (cs : List Char) :
    (charToPhonemePair cs).2 = 1 ∨ (charToPhonemePair cs).2 = 2 := by
  unfold charToPhonemePair
  split
  · next r hr => exact Or.inr (digraphTable_skip _ r hr)
  · split
    · exact Or.inl rfl
    · exact Or.inl (singleCharPh_skip _)

/-- Claim C10: `charToPhonemePair` always returns a skip of exactly 1 or 2 —
strictly positive on every input, including characters matched by no digraph
or single-character rule — so the scanning index of `textToVisemeSequence`
strictly increases until it passes the end of the text. -/
theorem phonemizer_progress :
    (∀ cs, (charToPhonemePair cs).2 = 1 ∨ (charToPhonemePair cs).2 = 2) ∧
    (∀ cs : List Char, cs ≠ [] → (cs.drop (charToPhonemePair cs).2).length < cs.length) := by
  refine ⟨charToPhonemePair_skip, fun cs hne => ?_⟩
  have h1 : 1 ≤ (charToPhonemePair cs).2 := by
    rcases charToPhonemePair_skip cs with h | h <;> omega
  have h2 : 0 < cs.length := List.length_pos.mpr hne
  rw [List.length_drop]
  omega

/-- Witness for C10 at the one-character text `x`. -/
theorem phonemizer_progress_witness :
    ((['x'].drop (charToPhonemePair ['x']).2).length < (['x'] : List Char).length) :=
  phonemizer_progress.2 ['x'] (by simp)

/-!  ### Claim C4  -/

/-- Claim C4 (counterexample): merging two `SIL` segments that both carry
confidence 0 yields confidence 0.5, not the maximum 0 of the two confidences
(the code defaults each falsy confidence to 0.5 before taking the maximum). -/
theorem smooth_conf_counterexample :
    smoothPhonemeTimeline [⟨"SIL", 0, 1 / 10, some 0⟩, ⟨"SIL", 1 / 10, 1 / 5, some 0⟩] =
      [⟨"SIL", 0, 1 / 5, some (1 / 2)⟩] ∧ (1 / 2 : ℚ) ≠ max 0 0 := by
  constructor
  · norm_num +decide [smoothPhonemeTimeline, smoothAux, mergedSeg, mergeCond, mergeThreshold,
      confD]
  · norm_num

/-- Claim C4 (amended): the smoother merges the second segment into the first
exactly when both carry the same phoneme and the gap is below the 30 ms
threshold, the merged end becoming the later segment's end and the merged
confidence the maximum of the two confidences after each is defaulted to 0.5
when missing or zero; in particular `[M, M, A]` with the `M` segments 10 ms
apart yields `[M, A]` with the merged `M` spanning both original ranges. -/
theorem smooth_merge_rule :
    (∀ (a b : PhonemeSegment) (rest : List PhonemeSegment),
      smoothPhonemeTimeline (a :: b :: rest) =
        if mergeCond a b then smoothPhonemeTimeline (mergedSeg a b :: rest)
        else a :: smoothPhonemeTimeline (b :: rest)) ∧
    smoothPhonemeTimeline [⟨"M", 0, 1 / 10, some 1⟩, ⟨"M", 11 / 100, 1 / 5, some (9 / 10)⟩,
        ⟨"AA", 1 / 5, 3 / 10, some 1⟩] =
      [⟨"M", 0, 1 / 5, some 1⟩, ⟨"AA", 1 / 5, 3 / 10, some 1⟩] := by
  constructor
  · intro a b rest
    by_cases h : mergeCond a b
    · rw [if_pos h]
      show smoothAux a (b :: rest) = _
      rw [smoothAux, if_pos h]
      rfl
    · rw [if_neg h]
      show smoothAux a (b :: rest) = _
      rw [smoothAux, if_neg h]
      rfl
  · norm_num +decide [smoothPhonemeTimeline, smoothAux, mergedSeg, mergeCond, mergeThreshold,
      confD]

/-!  ### Claim C6  -/

theorem bvt_durSum_aux (rand : ℕ → ℚ) (duration avg E : ℚ) :
    ∀ (vs : List String) (i : ℕ) (cursor : ℚ), vs ≠ [] →
      durSum (setLastEnd E (bvtGo rand duration avg i cursor vs)) = E - round3 cursor := by
  intro vs
  induction vs with
  | nil => intro i cursor h; exact absurd rfl h
  | cons v vs ih =>
    intro i cursor hne
    cases vs with
    | nil =>
      show durSum (setLastEnd E [⟨v, round3 cursor, _, none⟩]) = E - round3 cursor
      rw [setLastEnd, durSum_cons, durSum_nil]
      ring
    | cons w ws =>
      rw [show bvtGo rand duration avg i cursor (v :: w :: ws) =
          ⟨v, round3 cursor,
            round3 (min duration (cursor + avg * (9 / 10 + rand i * (3 / 10)))), none⟩ ::
            bvtGo rand duration avg (i + 1)
              (min duration (cursor + avg * (9 / 10 + rand i * (3 / 10)))) (w :: ws) from rfl]
      rw [setLastEnd_cons_of_ne E _ (by simp [bvtGo])]
      rw [durSum_cons]
      rw [ih (i + 1) (min duration (cursor + avg * (9 / 10 + rand i * (3 / 10)))) (by simp)]
      ring

/-- Claim C6 (counterexample): for the enhanced fallback builder
`generateFallbackVisemes` (part_001) on text `aab` with duration 1 s the two
emitted segments cover only 0.666 s — adjacent duplicate visemes advance the
cursor without emitting a segment, leaving a gap — so the segment durations do
not sum to the audio duration even up to a generous 0.1 tolerance. -/
theorem fallback_sum_counterexample :
    durSum (generateFallbackVisemes ['a', 'a', 'b'] 1) = 333 / 500 ∧
    ¬ |durSum (generateFallbackVisemes ['a', 'a', 'b'] 1) - 1| ≤ 1 / 10 := by
  have h : durSum (generateFallbackVisemes ['a', 'a', 'b'] 1) = 333 / 500 := by
    norm_num +decide [durSum, generateFallbackVisemes, splitWs, splitWsGo, isWsChar, fbWords,
      fbCharStep, charToVisemeEnhanced, setLastEnd, round3, round_eq]
  refine ⟨h, ?_⟩
  rw [h]
  norm_num [abs_le]

/-- Claim C6 (amended): for the server_backup fallback builder
`buildVisemeTimeline` the durations of the produced segments sum to the
rounded total duration, which is within 1/2000 s of the audio duration, for
every non-empty viseme sequence and every jitter stream; the enhanced builder
`generateFallbackVisemes` does not satisfy this. -/
theorem fallback_duration_sum :
    ∀ (rand : ℕ → ℚ) (visemes : List String) (d : ℚ), visemes ≠ [] →
      durSum (buildVisemeTimeline rand visemes d) = round3 d ∧ |round3 d - d| ≤ 1 / 2000 := by
  intro rand visemes d hne
  refine ⟨?_, abs_round3_sub_le d⟩
  cases visemes with
  | nil => exact absurd rfl hne
  | cons v vs =>
    show durSum (setLastEnd (round3 d)
        (bvtGo rand d (d / (((v :: vs).length : ℕ) : ℚ)) 0 0 (v :: vs))) = round3 d
    rw [bvt_durSum_aux rand d (d / (((v :: vs).length : ℕ) : ℚ)) (round3 d) (v :: vs) 0 0
      (by simp)]
    rw [round3_zero]
    ring

/-- Witness for C6 on the one-element sequence `[A]` with duration 1. -/
theorem fallback_duration_sum_witness :
    durSum (buildVisemeTimeline (fun _ => 0) ["A"] 1) = round3 1 ∧
      |round3 1 - (1 : ℚ)| ≤ 1 / 2000 :=
  fallback_duration_sum (fun _ => 0) ["A"] 1 (by simp)

/-!  ### Claim C7  -/

theorem setLastEnd_mem (E : ℚ) (s : VisemeSegment) :
    ∀ {l : List VisemeSegment}, s ∈ setLastEnd E l → s ∈ l ∨ s.stop = E := by
  intro l
  induction l with
  | nil => intro h; simp [setLastEnd] at h
  | cons a t ih =>
    cases t with
    | nil =>
      intro h
      rw [setLastEnd] at h
      rcases List.mem_singleton.mp h with rfl
      exact Or.inr rfl
    | cons b u =>
      intro h
      rw [setLastEnd] at h
      rcases List.mem_cons.mp h with rfl | hm
      · exact Or.inl (List.mem_cons_self _ _)
      · rcases ih hm with h1 | h2
        · exact Or.inl (List.mem_cons_of_mem _ h1)
        · exact Or.inr h2

theorem round3_add_of_le {c h : ℚ} (hh : 1 / 25 ≤ h) :
    round3 c + 1 / 25 ≤ round3 (c + h) := by
  rw [← round3_add_inv25 c]
  exact round3_mono (by linarith)

theorem bvt000_aux_floor (rand : ℕ → ℚ) (d base : ℚ) :
    ∀ (vs : List String) (i : ℕ) (cursor : ℚ) (s : VisemeSegment),
      s ∈ bvt000Go rand d base i cursor vs →
      (1 / 25 : ℚ) ≤ s.stop - s.start ∨ s.stop = round3 d := by
  intro vs
  induction vs with
  | nil => intro i cursor s hs; simp [bvt000Go] at hs
  | cons v vs ih =>
    intro i cursor s hs
    rw [show bvt000Go rand d base i cursor (v :: vs) =
        ⟨v, round3 cursor,
          round3 (min d (cursor + max (1 / 25) (base * (17 / 20 + rand i * (3 / 10))))),
          none⟩ ::
          bvt000Go rand d base (i + 1)
            (min d (cursor + max (1 / 25) (base * (17 / 20 + rand i * (3 / 10))))) vs
      from rfl] at hs
    rcases List.mem_cons.mp hs with rfl | hmem
    · by_cases hcl : cursor + max (1 / 25) (base * (17 / 20 + rand i * (3 / 10))) ≤ d
      · left
        rw [min_eq_right hcl]
        have hd : (1 / 25 : ℚ) ≤ max (1 / 25) (base * (17 / 20 + rand i * (3 / 10))) :=
          le_max_left _ _
        have := round3_add_of_le (c := cursor) hd
        show 1 / 25 ≤ round3 (cursor + _) - round3 cursor
        linarith
      · right
        show round3 (min d _) = round3 d
        rw [min_eq_left (le_of_not_le hcl)]
    · exact ih _ _ s hmem

/-- Claim C7 (counterexample): the part_000 fallback builder on the sequence
`[A, M]` with duration 0.05 s (jitter stream 0) emits a second segment of
duration 0.01 s, below the 40 ms floor, because the per-segment hold is
clamped at the total duration; no merging is involved. -/
theorem min_hold_counterexample :
    buildVisemeTimeline000 (fun _ => 0) ["A", "M"] (1 / 20) =
      [⟨"A", 0, 1 / 25, none⟩, ⟨"M", 1 / 25, 1 / 20, none⟩] ∧
    (1 / 20 : ℚ) - 1 / 25 < 1 / 25 := by
  constructor
  · norm_num [buildVisemeTimeline000, bvt000Go, setLastEnd, round3, round_eq]
  · norm_num

/-- Claim C7 (amended): every segment of the part_000 fallback builder either
lasts at least the 40 ms floor or ends exactly at the rounded total duration —
the clamp of the cursor at the total duration (and the final end pinning) is
the only way a segment can come out shorter; the jitter alone never pushes a
hold below the floor because of the `Math.max(0.04, …)`. -/
theorem fallback000_min_hold :
    ∀ (rand : ℕ → ℚ) (seq : List String) (d : ℚ) (s : VisemeSegment),
      s ∈ buildVisemeTimeline000 rand seq d →
      (1 / 25 : ℚ) ≤ s.stop - s.start ∨ s.stop = round3 d := by
  intro rand seq d s hs
  cases seq with
  | nil => simp [buildVisemeTimeline000] at hs
  | cons v vs =>
    rcases setLastEnd_mem (round3 d) s hs with hmem | hstop
    · exact bvt000_aux_floor rand d (d / (((v :: vs).length : ℕ) : ℚ)) (v :: vs) 0 0 s hmem
    · exact Or.inr hstop

/-- Witness for C7 on the one-element sequence `[A]` with duration 1. -/
theorem fallback000_min_hold_witness :
    (1 / 25 : ℚ) ≤ (VisemeSegment.mk "A" 0 1 none).stop - (VisemeSegment.mk "A" 0 1 none).start ∨
      (VisemeSegment.mk "A" 0 1 none).stop = round3 1 :=
  fallback000_min_hold (fun _ => 0) ["A"] 1 ⟨"A", 0, 1, none⟩ (by
    have h : buildVisemeTimeline000 (fun _ => 0) ["A"] 1 = [⟨"A", 0, 1, none⟩] := by
      norm_num [buildVisemeTimeline000, bvt000Go, setLastEnd, round3, round_eq]
    rw [h]
    exact List.mem_singleton.mpr rfl)

/-!  ### Claim C8  -/

theorem mergedSeg_keys (a b : PhonemeSegment) :
    (mergedSeg a b).phoneme = a.phoneme ∧ (mergedSeg a b).start = a.start :=
  ⟨rfl, rfl⟩

theorem smoothAux_ne_nil : ∀ (l : List PhonemeSegment) (c : PhonemeSegment),
    smoothAux c l ≠ [] := by
  intro l
  induction l with
  | nil => intro c; simp [smoothAux]
  | cons n r ih =>
    intro c
    rw [smoothAux]
    split
    · exact ih _
    · simp

theorem smoothAux_head_keys :
    ∀ (l : List PhonemeSegment) (c : PhonemeSegment),
      (smoothAux c l).head?.map (fun s => (s.phoneme, s.start)) = some (c.phoneme, c.start) := by
  intro l
  induction l with
  | nil => intro c; rfl
  | cons next rest ih =>
    intro c
    rw [smoothAux]
    split
    · rw [ih (mergedSeg c next)]
      rfl
    · rfl

theorem smoothAux_chain :
    ∀ (l : List PhonemeSegment) (c : PhonemeSegment),
      List.Chain' (fun a b => ¬ mergeCond a b) (smoothAux c l) := by
  intro l
  induction l with
  | nil => intro c; simp [smoothAux]
  | cons next rest ih =>
    intro c
    rw [smoothAux]
    split
    · exact ih _
    · next hnot =>
      rw [List.chain'_cons']
      refine ⟨?_, ih next⟩
      intro y hy
      have hk := smoothAux_head_keys rest next
      have hkeys : y.phoneme = next.phoneme ∧ y.start = next.start := by
        cases ho : (smoothAux next rest).head? with
        | none => rw [ho] at hy; simp at hy
        | some z =>
          rw [ho] at hy
          simp at hy
          subst hy
          rw [ho] at hk
          simp at hk
          exact ⟨by rw [← hk.1], by rw [← hk.2]⟩
      intro hmc
      exact hnot ⟨hmc.1.trans hkeys.1, by rw [← hkeys.2]; exact hmc.2⟩

theorem smoothAux_of_chain :
    ∀ (l : List PhonemeSegment) (c : PhonemeSegment),
      (∀ y ∈ l.head?, ¬ mergeCond c y) →
      List.Chain' (fun a b => ¬ mergeCond a b) l →
      smoothAux c l = c :: l := by
  intro l
  induction l with
  | nil => intro c _ _; rfl
  | cons next rest ih =>
    intro c hhead hchain
    have hnc : ¬ mergeCond c next := hhead next (by simp)
    rw [smoothAux, if_neg hnc]
    rw [List.chain'_cons'] at hchain
    rw [ih next hchain.1 hchain.2]

/-- Claim C8: the smoother is idempotent — applying `smoothPhonemeTimeline` to
its own output returns that output unchanged, because adjacent entries of the
output never satisfy the merge condition. -/
theorem smooth_idempotent :
    ∀ xs, smoothPhonemeTimeline (smoothPhonemeTimeline xs) = smoothPhonemeTimeline xs := by
  intro xs
  cases xs with
  | nil => rfl
  | cons p ps =>
    show smoothPhonemeTimeline (smoothAux p ps) = smoothAux p ps
    rcases hq : smoothAux p ps with _ | ⟨q, qs⟩
    · exact absurd hq (smoothAux_ne_nil ps p)
    · have hchain := smoothAux_chain ps p
      rw [hq] at hchain
      rw [List.chain'_cons'] at hchain
      show smoothAux q qs = q :: qs
      exact smoothAux_of_chain qs q hchain.1 hchain.2

/-!  ### Claim C2  -/

theorem setLastEnd_getLast (E : ℚ) :
    ∀ {l : List VisemeSegment}, l ≠ [] →
      (setLastEnd E l).getLast?.map VisemeSegment.stop = some E := by
  intro l
  induction l with
  | nil => intro h; exact absurd rfl h
  | cons a t ih =>
    intro h
    cases t with
    | nil => rfl
    | cons b u =>
      rw [setLastEnd]
      rw [getLast?_cons_ne_nil a (setLastEnd_ne_nil E (by simp))]
      exact ih (by simp)

theorem ptveAux_ne_nil :
    ∀ (ps : List PhonemeSegment) (prev : Option PhonemeSegment),
      ps ≠ [] → ptveAux prev ps ≠ [] := by
  intro ps
  induction ps with
  | nil => intro prev h; exact absurd rfl h
  | cons p rest ih =>
    intro prev h
    rw [ptveAux]
    split
    · next hskip =>
      cases rest with
      | nil => cases prev <;> simp [ptveSkip] at hskip
      | cons q u => exact ih (some p) (by simp)
    · simp

theorem ptveAux_getLast :
    ∀ (ps : List PhonemeSegment) (prev : Option PhonemeSegment), ps ≠ [] →
      (ptveAux prev ps).getLast?.map VisemeSegment.stop =
        ps.getLast?.map PhonemeSegment.stop := by
  intro ps
  induction ps with
  | nil => intro prev h; exact absurd rfl h
  | cons p rest ih =>
    intro prev h
    cases rest with
    | nil => cases prev <;> simp [ptveAux, ptveSkip]
    | cons q u =>
      rw [ptveAux]
      rw [show (p :: q :: u).getLast? = (q :: u).getLast? from List.getLast?_cons_cons]
      split
      · exact ih (some p) (by simp)
      · rw [getLast?_cons_ne_nil _ (ptveAux_ne_nil (q :: u) (some p) (by simp))]
        exact ih (some p) (by simp)

/-- In part_001 the final-rest step of `phonemesToVisemesEnhanced` never fires:
the last phoneme is never dropped by the flicker rule, so the last viseme
already ends exactly at the last phoneme's end. -/
theorem ptve_eq_body (p0 : PhonemeSegment) (rest : List PhonemeSegment) :
    phonemesToVisemesEnhanced (p0 :: rest) = ptvePre p0 ++ ptveAux none (p0 :: rest) := by
  have hne : ptveAux none (p0 :: rest) ≠ [] := ptveAux_ne_nil (p0 :: rest) none (by simp)
  have hlast : (ptvePre p0 ++ ptveAux none (p0 :: rest)).getLast?.map VisemeSegment.stop =
      (p0 :: rest).getLast?.map PhonemeSegment.stop := by
    rw [getLast?_append_ne_nil _ hne]
    exact ptveAux_getLast (p0 :: rest) none (by simp)
  show addFinalRest (ptvePre p0 ++ ptveAux none (p0 :: rest)) (p0 :: rest) = _
  unfold addFinalRest
  rcases hb : (ptvePre p0 ++ ptveAux none (p0 :: rest)).getLast? with _ | lv
  · rfl
  · rcases hp : (p0 :: rest).getLast? with _ | lp
    · simp at hp
    · rw [hb, hp] at hlast
      have heq : lv.stop = lp.stop := Option.some.inj hlast
      simp [heq]

/-- Claim C2 (counterexample): on the aligned path with the single aligned
phoneme `AA` spanning `[0, 0.3]` and a known audio duration of 1 s, the
timeline's last segment ends at 0.3, not at the audio duration — the aligned
path never forces the last end to the duration. -/
theorem aligned_end_counterexample :
    (phonemesToVisemesEnhanced
        (smoothPhonemeTimeline [⟨"AA", 0, 3 / 10, some 1⟩])).getLast?.map VisemeSegment.stop =
      some (3 / 10) ∧ (3 / 10 : ℚ) ≠ 1 := by
  constructor
  · have h : phonemesToVisemesEnhanced (smoothPhonemeTimeline [⟨"AA", 0, 3 / 10, some 1⟩]) =
        [⟨"A", 0, 3 / 10, some 1⟩] := by
      norm_num +decide [phonemesToVisemesEnhanced, smoothPhonemeTimeline, smoothAux, ptveAux,
        ptveSkip, ptvePre, addFinalRest, visemeOf, phonemeToVisemeTableE, confD]
    rw [h]
    rfl
  · norm_num

theorem bvt_endpoints :
    ∀ (rand : ℕ → ℚ) (visemes : List String) (d : ℚ), visemes ≠ [] →
      (buildVisemeTimeline rand visemes d).head?.map VisemeSegment.start = some 0 ∧
      (buildVisemeTimeline rand visemes d).getLast?.map VisemeSegment.stop =
        some (round3 d) := by
  intro rand visemes d hne
  cases visemes with
  | nil => exact absurd rfl hne
  | cons v vs =>
    constructor
    · show (setLastEnd (round3 d)
          (⟨v, round3 0, _, none⟩ :: bvtGo rand d _ 1 _ vs)).head?.map VisemeSegment.start = _
      rw [setLastEnd_head]
      rw [round3_zero]
    · exact setLastEnd_getLast (round3 d) (by simp [bvtGo])

theorem ptve_endpoints :
    ∀ (p0 : PhonemeSegment) (rest : List PhonemeSegment), 0 ≤ p0.start →
      (phonemesToVisemesEnhanced (p0 :: rest)).head?.map VisemeSegment.start = some 0 ∧
      (phonemesToVisemesEnhanced (p0 :: rest)).getLast?.map VisemeSegment.stop =
        (p0 :: rest).getLast?.map PhonemeSegment.stop := by
  intro p0 rest hpos
  rw [ptve_eq_body]
  constructor
  · by_cases h : 0 < p0.start
    · rw [show ptvePre p0 = [⟨"rest", 0, p0.start, some 1⟩] from by rw [ptvePre, if_pos h]]
      rfl
    · rw [show ptvePre p0 = [] from by rw [ptvePre, if_neg h]]
      have hstart : p0.start = 0 := le_antisymm (le_of_not_lt h) hpos
      rw [List.nil_append]
      rw [show ptveAux none (p0 :: rest) =
          ⟨visemeOf p0.phoneme, p0.start, p0.stop, some (confD p0.confidence)⟩ ::
            ptveAux (some p0) rest from by
        rw [ptveAux]
        rw [if_neg (by cases rest <;> simp [ptveSkip])]]
      simp [hstart]
  · rw [getLast?_append_ne_nil _ (ptveAux_ne_nil (p0 :: rest) none (by simp))]
    exact ptveAux_getLast (p0 :: rest) none (by simp)

/-- Claim C2 (amended): the first segment starts at 0 on both paths — exactly,
on the fallback path, and given a non-negative first phoneme start on the
aligned path — and on the fallback path the last segment's end is forced to
the rounded audio duration; on the aligned path the last segment instead ends
exactly where the last aligned phoneme ends, which need not be the audio
duration. -/
theorem timeline_endpoints :
    (∀ (rand : ℕ → ℚ) (visemes : List String) (d : ℚ), visemes ≠ [] →
      (buildVisemeTimeline rand visemes d).head?.map VisemeSegment.start = some 0 ∧
      (buildVisemeTimeline rand visemes d).getLast?.map VisemeSegment.stop =
        some (round3 d)) ∧
    (∀ (p0 : PhonemeSegment) (rest : List PhonemeSegment), 0 ≤ p0.start →
      (phonemesToVisemesEnhanced (p0 :: rest)).head?.map VisemeSegment.start = some 0 ∧
      (phonemesToVisemesEnhanced (p0 :: rest)).getLast?.map VisemeSegment.stop =
        (p0 :: rest).getLast?.map PhonemeSegment.stop) :=
  ⟨bvt_endpoints, ptve_endpoints⟩

/-- Witness for C2 on concrete inputs for both paths. -/
theorem timeline_endpoints_witness :
    ((buildVisemeTimeline (fun _ => 0) ["A"] 1).head?.map VisemeSegment.start = some 0 ∧
      (buildVisemeTimeline (fun _ => 0) ["A"] 1).getLast?.map VisemeSegment.stop =
        some (round3 1)) ∧
    ((phonemesToVisemesEnhanced [⟨"AA", 0, 3 / 10, some 1⟩]).head?.map VisemeSegment.start =
        some 0 ∧
      (phonemesToVisemesEnhanced [⟨"AA", 0, 3 / 10, some 1⟩]).getLast?.map VisemeSegment.stop =
        ([(⟨"AA", 0, 3 / 10, some 1⟩ : PhonemeSegment)]).getLast?.map PhonemeSegment.stop) :=
  ⟨timeline_endpoints.1 (fun _ => 0) ["A"] 1 (by simp),
   timeline_endpoints.2 ⟨"AA", 0, 3 / 10, some 1⟩ [] (by norm_num)⟩
